import Mathlib

/-!
A shallow embedding of the gobonsai game library (Go), covering the parts
of the code that the specification talks about: the entity–component
registry (`ecs.go`), its gob-based serialization, the collision engine
(`collisions.go`) and the axis-separated physics system.

Modelling conventions:
* Go `float64` values are modelled as rationals (`ℚ`); every comparison the
  claims depend on is far from any rounding boundary, and the source code
  performs only `+`, `*`, `/2` and comparisons.
* A Go `sync.Map` is modelled as an association list; `Store` replaces the
  binding for an existing key, `Delete` removes it, `Range` visits the
  bindings in list order (Go leaves the order unspecified; none of the
  properties proved below depend on it).
* A Go `panic` (failed type assertion, nil dereference) is modelled by an
  `Option` result being `none`.
* Go functions stored in components (collision callbacks) cannot be
  modelled directly; a `CollisionHandler` records which of its three
  callbacks are non-nil, and an `Update` tick returns the list of callback
  dispatches it performs, in order.
-/

namespace Gobonsai

/-- Entity is `uint32` in the source; ids stay far below `2^32` here and the
only arithmetic on them is the wrapping increment in `AddEntity`. -/
abbrev Entity := Nat

/-- Keys of the `indentToEntity` sync.Map are `interface{}` in Go:
`AddEntity` stores `string` keys, while `FromSerializable` stores `uint32`
keys (from `identMap`).  The sum type keeps both possibilities. -/
abbrev IdentKey := Sum String Nat

/-- `sync.Map` lookup (`Load`). -/
def alookup {κ β : Type} [DecidableEq κ] : List (κ × β) → κ → Option β
  | [], _ => none
  | (a, b) :: t, k => if a = k then some b else alookup t k

/-- `sync.Map` delete. -/
def aerase {κ β : Type} [DecidableEq κ] (l : List (κ × β)) (k : κ) : List (κ × β) :=
  l.filter (fun p => decide (p.1 ≠ k))

/-- `sync.Map` store: replaces any existing binding for the key. -/
def astore {κ β : Type} [DecidableEq κ] (l : List (κ × β)) (k : κ) (v : β) : List (κ × β) :=
  (k, v) :: aerase l k

/-- The registry state of `ECSManager` (ecs.go).  Component values are Go
`interface{}`; the model is parametric in their type `α`. -/
structure ECSManager (α : Type) where
  lastEntityID : Nat
  entities : List (Entity × Bool)
  indentToEntity : List (IdentKey × Entity)
  components : List (Entity × List (String × α))

/-- `AddEntity`: wrapping `uint32` increment, entity marked live, fresh
component store, optional stable ident stored under a string key. -/
def ECSManager.AddEntity {α : Type} (em : ECSManager α) (ident : Option String) :
    ECSManager α × Entity :=
  let id := (em.lastEntityID + 1) % 2 ^ 32
  let em1 : ECSManager α :=
    { em with lastEntityID := id,
              entities := astore em.entities id true,
              components := astore em.components id [] }
  match ident with
  | some s => ({ em1 with indentToEntity := astore em1.indentToEntity (Sum.inl s) id }, id)
  | none => (em1, id)

/-- The `Range` in `RemoveEntity` deletes the first ident binding whose
value is the removed entity, then stops. -/
def removeFirstIdent : List (IdentKey × Entity) → Entity → List (IdentKey × Entity)
  | [], _ => []
  | (k, v) :: t, e => if v = e then t else (k, v) :: removeFirstIdent t e

/-- `RemoveEntity`: drops the ident binding, the liveness mark and the
whole component store of the entity. -/
def ECSManager.RemoveEntity {α : Type} (em : ECSManager α) (e : Entity) : ECSManager α :=
  { em with indentToEntity := removeFirstIdent em.indentToEntity e,
            entities := aerase em.entities e,
            components := aerase em.components e }

/-- `Entity.AddComponent` (via the global manager): a no-op when the entity
is not live; otherwise stores into the entity component store.  When the
entity is live its store exists (every constructor of the state pairs
them); the impossible branch returns the state unchanged. -/
def ECSManager.AddComponent {α : Type} (em : ECSManager α) (e : Entity) (name : String)
    (c : α) : ECSManager α :=
  if (alookup em.entities e).isSome then
    match alookup em.components e with
    | some cm => { em with components := astore em.components e (astore cm name c) }
    | none => em
  else em

/-- `Entity.HasComponent`. -/
def ECSManager.HasComponent {α : Type} (em : ECSManager α) (e : Entity) (name : String) :
    Bool :=
  match alookup em.components e with
  | none => false
  | some cm => (alookup cm name).isSome

/-- `GetEntitiesWithComponents`: ranges over the live entities, skips an
entity whose component store is missing, keeps it iff every requested name
is present in its store. -/
def ECSManager.GetEntitiesWithComponents {α : Type} (em : ECSManager α)
    (names : List String) : List Entity :=
  (em.entities.filter (fun p =>
    match alookup em.components p.1 with
    | none => false
    | some cm => names.all (fun n => (alookup cm n).isSome))).map (fun p => p.1)

/-- `GetEntityByIdent`: looks up the ident under a `string` key. -/
def ECSManager.GetEntityByIdent {α : Type} (em : ECSManager α) (ident : String) :
    Option Entity :=
  alookup em.indentToEntity (Sum.inl ident)

/-- The struct `SerializableECSManager`.  The field `identMap` is
unexported (lower-case) in the Go source, with `uint32` keys. -/
structure SerializableECSManager (α : Type) where
  LastEntityID : Nat
  Entities : List (Entity × Bool)
  Components : List (Entity × List (String × α))
  identMap : List (Nat × Entity)

/-- The struct `SerializableEntity`. -/
structure SerializableEntity (α : Type) where
  ID : Entity
  Ident : String
  Components : List (String × α)

/-- A gob-encoded blob.  gob serializes only the exported fields of a
struct, so an encoded `SerializableECSManager` carries `LastEntityID`,
`Entities` and `Components` but not the unexported `identMap`; `corrupt`
stands for any byte sequence from which the expected value does not
decode. -/
inductive GobBlob (α : Type) where
  | ecsData (lastEntityID : Nat) (entities : List (Entity × Bool))
      (components : List (Entity × List (String × α)))
  | entityData (id : Entity) (ident : String) (comps : List (String × α))
  | corrupt (bytes : List Nat)

/-- gob encoding of a `SerializableECSManager`: the unexported `identMap`
is silently omitted. -/
def gobEncodeECS {α : Type} (s : SerializableECSManager α) : GobBlob α :=
  GobBlob.ecsData s.LastEntityID s.Entities s.Components

/-- gob decoding of a `SerializableECSManager` blob: on success the
unexported `identMap` is left at its zero value (nil); anything else is a
decode error. -/
def gobDecodeECS {α : Type} : GobBlob α → Except String (SerializableECSManager α)
  | GobBlob.ecsData l e c => Except.ok ⟨l, e, c, []⟩
  | _ => Except.error "gob: decode error"

/-- gob decoding of a `SerializableEntity` blob. -/
def gobDecodeEntity {α : Type} : GobBlob α → Except String (SerializableEntity α)
  | GobBlob.entityData i s c => Except.ok ⟨i, s, c⟩
  | _ => Except.error "gob: decode error"

/-- `ToSerializable`.  Its `Range` over `indentToEntity` asserts every key
to `uint32` (`k.(uint32)`); `AddEntity` stores `string` keys, so the
assertion panics (`none`) as soon as any string-keyed binding is present.
Only `uint32` keys (which `FromSerializable` would store) survive into
`identMap`. -/
def ECSManager.ToSerializable {α : Type} (em : ECSManager α) :
    Option (SerializableECSManager α) :=
  if em.indentToEntity.all (fun p => match p.1 with | Sum.inl _ => false | Sum.inr _ => true)
  then
    some ⟨em.lastEntityID, em.entities, em.components,
      em.indentToEntity.filterMap (fun p =>
        match p.1 with | Sum.inl _ => none | Sum.inr n => some (n, p.2))⟩
  else none

/-- The body of the entity loop of `FromSerializable`: mark the entity
live and give it a fresh store holding its serialized components (empty
when the entity has no serialized store). -/
def fsEntityStep {α : Type} (d : SerializableECSManager α) (acc : ECSManager α)
    (p : Entity × Bool) : ECSManager α :=
  { acc with entities := astore acc.entities p.1 p.2,
             components := astore acc.components p.1
               (match alookup d.Components p.1 with
                | some comps => comps
                | none => []) }

/-- The body of the ident loop of `FromSerializable`: the `identMap` keys
are `uint32`, so the binding is stored under a `uint32` key. -/
def fsIdentStep {α : Type} (acc : ECSManager α) (p : Nat × Entity) : ECSManager α :=
  { acc with indentToEntity := astore acc.indentToEntity (Sum.inr p.1) p.2 }

/-- `FromSerializable`: overwrites the id counter, stores every serialized
entity with a store holding its serialized components, then stores every
`identMap` binding under a `uint32` key. -/
def ECSManager.FromSerializable {α : Type} (em : ECSManager α)
    (d : SerializableECSManager α) : ECSManager α :=
  d.identMap.foldl fsIdentStep
    (d.Entities.foldl (fsEntityStep d) { em with lastEntityID := d.LastEntityID })

/-- `Encode`: gob-encode `ToSerializable` (whose panic propagates). -/
def ECSManager.Encode {α : Type} (em : ECSManager α) : Option (GobBlob α) :=
  (em.ToSerializable).map gobEncodeECS

/-- `Decode`: on a decode error the registry is untouched and the error is
returned; on success `FromSerializable` is applied. -/
def ECSManager.Decode {α : Type} (em : ECSManager α) (data : GobBlob α) :
    ECSManager α × Option String :=
  match gobDecodeECS data with
  | Except.error msg => (em, some msg)
  | Except.ok d => (em.FromSerializable d, none)

/-- The `Range` in `EncodeEntity` looks for the first ident binding of the
entity and asserts its key to `string`; no binding yields `""`, a `uint32`
key would panic (`none`). -/
def firstIdentOf : List (IdentKey × Entity) → Entity → Option String
  | [], _ => some ""
  | (k, v) :: t, e =>
    if v = e then (match k with | Sum.inl s => some s | Sum.inr _ => none)
    else firstIdentOf t e

/-- `EncodeEntity`: `v, _ := em.components.Load(e); cm := v.(*sync.Map)` —
when the entity has no component store the loaded value is nil and the
type assertion panics (`none`); otherwise the entity id, its ident (empty
when absent) and its components are gob-encoded. -/
def ECSManager.EncodeEntity {α : Type} (em : ECSManager α) (e : Entity) :
    Option (GobBlob α) :=
  match alookup em.components e with
  | none => none
  | some cm =>
    match firstIdentOf em.indentToEntity e with
    | none => none
    | some ident => some (GobBlob.entityData e ident cm)

/-- `DecodeEntity`: on a decode error the registry is untouched; otherwise
the target entity is the existing entity with the decoded ident, or a
fresh one, and the decoded components are added to it. -/
def ECSManager.DecodeEntity {α : Type} (em : ECSManager α) (data : GobBlob α) :
    ECSManager α × Except String Entity :=
  match gobDecodeEntity data with
  | Except.error msg => (em, Except.error msg)
  | Except.ok d =>
    let (em1, target) :=
      if d.Ident ≠ "" then
        match em.GetEntityByIdent d.Ident with
        | some ex => (em, ex)
        | none => em.AddEntity (some d.Ident)
      else em.AddEntity none
    (d.Components.foldl (fun acc p => acc.AddComponent target p.1 p.2) em1,
     Except.ok target)

/-- Well-formedness every API-built registry enjoys: `sync.Map` keys are
unique and every live entity owns a component store. -/
structure ECSWF {α : Type} (em : ECSManager α) : Prop where
  entNodup : (em.entities.map Prod.fst).Nodup
  hasStore : ∀ e : Entity, (alookup em.entities e).isSome →
    (alookup em.components e).isSome

/-- The per-entity filter of `GetEntitiesWithComponents` (it reads only the
entity id of the ranged binding). -/
def entPred {α : Type} (em : ECSManager α) (names : List String) (e : Entity) : Bool :=
  match alookup em.components e with
  | none => false
  | some cm => names.all (fun n => (alookup cm n).isSome)

/-! ## Collision engine (collisions.go) -/

/-- `ColliderComponent` (ecs.go). -/
structure ColliderComponent where
  Group : String
  CrossShape : Bool
  OffsetX : ℚ
  OffsetY : ℚ
  Width : ℚ
  Height : ℚ
  HorizWidth : ℚ
  HorizHeight : ℚ
  VertWidth : ℚ
  VertHeight : ℚ
deriving DecidableEq

/-- `PositionComponent`. -/
structure PositionComponent where
  X : ℚ
  Y : ℚ
deriving DecidableEq

/-- `SizeComponent`. -/
structure SizeComponent where
  Width : ℚ
  Height : ℚ
  TopOffset : ℚ
  BottomOffset : ℚ
  LeftOffset : ℚ
  RightOffset : ℚ
deriving DecidableEq

/-- `VelocityComponent`. -/
structure VelocityComponent where
  X : ℚ
  Y : ℚ
deriving DecidableEq

/-- `rectOverlap`: strict axis-aligned overlap test. -/
def rectOverlap (x1 y1 w1 h1 x2 y2 w2 h2 : ℚ) : Bool :=
  decide (x1 < x2 + w2) && decide (x1 + w1 > x2) &&
  decide (y1 < y2 + h2) && decide (y1 + h1 > y2)

/-- `checkCollision`, with the source branch structure: a cross-shaped
first collider is decomposed into its horizontal and vertical bars and
tested against the second collider's plain rectangle, returning at once. -/
def checkCollision (p1 : PositionComponent) (c1 : ColliderComponent)
    (p2 : PositionComponent) (c2 : ColliderComponent) : Bool :=
  if c1.CrossShape then
    (rectOverlap (p1.X + c1.OffsetX - c1.HorizWidth / 2)
        (p1.Y + c1.OffsetY - c1.HorizHeight / 2) c1.HorizWidth c1.HorizHeight
        (p2.X + c2.OffsetX) (p2.Y + c2.OffsetY) c2.Width c2.Height ||
      rectOverlap (p1.X + c1.OffsetX - c1.VertWidth / 2)
        (p1.Y + c1.OffsetY - c1.VertHeight / 2) c1.VertWidth c1.VertHeight
        (p2.X + c2.OffsetX) (p2.Y + c2.OffsetY) c2.Width c2.Height)
  else if c2.CrossShape then
    (rectOverlap (p2.X + c2.OffsetX - c2.HorizWidth / 2)
        (p2.Y + c2.OffsetY - c2.HorizHeight / 2) c2.HorizWidth c2.HorizHeight
        (p1.X + c1.OffsetX) (p1.Y + c1.OffsetY) c1.Width c1.Height ||
      rectOverlap (p2.X + c2.OffsetX - c2.VertWidth / 2)
        (p2.Y + c2.OffsetY - c2.VertHeight / 2) c2.VertWidth c2.VertHeight
        (p1.X + c1.OffsetX) (p1.Y + c1.OffsetY) c1.Width c1.Height)
  else
    rectOverlap (p1.X + c1.OffsetX) (p1.Y + c1.OffsetY) c1.Width c1.Height
      (p2.X + c2.OffsetX) (p2.Y + c2.OffsetY) c2.Width c2.Height

/-- A registered `CollisionHandler`: which of the three Go callbacks are
non-nil. -/
structure CollisionHandler where
  hasEnter : Bool
  hasStay : Bool
  hasLeave : Bool
deriving DecidableEq

/-- Which callback of a handler a tick dispatched. -/
inductive CollisionPhase where
  | enter
  | stay
  | leave
deriving DecidableEq

/-- One callback dispatch `handler.Phase(a, b)` performed by a tick. -/
structure CollisionEvent where
  phase : CollisionPhase
  a : Entity
  b : Entity
deriving DecidableEq

/-- The collision key `fmt.Sprintf("%d-%d", e1, e2)` is in bijection with
the ordered pair of entity ids; the model uses the pair directly. -/
abbrev CollisionKey := Entity × Entity

/-- The read-only world a collision tick sees: the entity list from
`GetEntitiesWithComponents("collider", "position", "size")`, the result of
`getComponents` per entity, and the `handlers` table consulted by
`getHandler`. -/
structure CollisionWorld where
  entities : List Entity
  comps : Entity → Option (ColliderComponent × PositionComponent × SizeComponent)
  handlers : String → String → Option CollisionHandler

/-- Mutable state of the nested pair loop in `Update`.  `tested` records
each pair whose `checkCollision` call actually ran (instrumentation used
to state the dedup property; the source has no such list). -/
structure TickState where
  processed : List CollisionKey
  current : List CollisionKey
  prev : List CollisionKey
  events : List CollisionEvent
  tested : List CollisionKey

/-- The body of the nested loops of `Update` for one ordered pair:
skip identical entities, require components of both and a handler for
`(group e1, group e2)`, dedup on the ordered key, then run the overlap
test and dispatch Enter or Stay against `previousCollisions`. -/
def pairStep (w : CollisionWorld) (st : TickState) (k : CollisionKey) : TickState :=
  if k.1 = k.2 then st else
  match w.comps k.1 with
  | none => st
  | some (c1, p1, _) =>
    match w.comps k.2 with
    | none => st
    | some (c2, p2, _) =>
      match w.handlers c1.Group c2.Group with
      | none => st
      | some h =>
        if k ∈ st.processed then st else
        let st1 : TickState :=
          { st with processed := k :: st.processed, tested := st.tested ++ [k] }
        if checkCollision p1 c1 p2 c2 then
          let st2 : TickState := { st1 with current := k :: st1.current }
          if k ∈ st2.prev then
            { st2 with events := st2.events ++
                (if h.hasStay then [⟨CollisionPhase.stay, k.1, k.2⟩] else []) }
          else
            { st2 with prev := k :: st2.prev,
                       events := st2.events ++
                (if h.hasEnter then [⟨CollisionPhase.enter, k.1, k.2⟩] else []) }
        else st1

/-- The ordered pairs visited by the nested entity loops, in order. -/
def pairsOf (l : List Entity) : List CollisionKey :=
  l.flatMap (fun a => l.map (fun b => (a, b)))

/-- Phase one of `Update`: the nested loops over all ordered pairs.
The source hoists the `getComponents e1` lookup out of the inner loop and
skips the whole inner loop when it fails; since the lookup is pure and a
skipped pair leaves the state unchanged, checking it per pair is the same
function. -/
def phase1 (w : CollisionWorld) (prev : List CollisionKey) : TickState :=
  (pairsOf w.entities).foldl (pairStep w) ⟨[], [], prev, [], []⟩

/-- The body of the `previousCollisions.Range` sweep in `Update` for one
tracked key: a key still colliding is kept; otherwise Leave is dispatched
when both entities still resolve and a handler exists, and the key is
dropped either way. -/
def leaveStep (w : CollisionWorld) (current : List CollisionKey)
    (acc : List CollisionKey × List CollisionEvent) (k : CollisionKey) :
    List CollisionKey × List CollisionEvent :=
  if k ∈ current then (acc.1 ++ [k], acc.2)
  else
    match w.comps k.1, w.comps k.2 with
    | some (c1, _, _), some (c2, _, _) =>
      (match w.handlers c1.Group c2.Group with
       | some h => (acc.1, acc.2 ++
           (if h.hasLeave then [⟨CollisionPhase.leave, k.1, k.2⟩] else []))
       | none => (acc.1, acc.2))
    | _, _ => (acc.1, acc.2)

/-- One tick of `CollisionManager.Update`.  Input: the world and the keys
of `previousCollisions`.  Output: the dispatched callbacks in order, the
keys of `previousCollisions` after the tick, and the pairs whose overlap
test ran. -/
def collisionUpdate (w : CollisionWorld) (prev : List CollisionKey) :
    List CollisionEvent × List CollisionKey × List CollisionKey :=
  let st := phase1 w prev
  let swept := st.prev.foldl (leaveStep w st.current) ([], [])
  (st.events ++ swept.2, swept.1, st.tested)

/-- The dispatches a tick performed for one ordered pair. -/
def eventsFor (k : CollisionKey) (evs : List CollisionEvent) : List CollisionEvent :=
  evs.filter (fun ev => decide ((ev.a, ev.b) = k))

/-! ## Physics system (axis-separated movement) -/

/-- A solid obstacle as `processEntity` sees it: the entity id, its
position and size components, and the set of its component names (used by
the `solidexclude` filter). -/
structure Obstacle where
  id : Entity
  pos : PositionComponent
  size : SizeComponent
  names : List String

/-- `isColliding`: strict overlap of the two padded rectangles. -/
def isColliding (x1 y1 : ℚ) (s1 : SizeComponent) (p2 : PositionComponent)
    (s2 : SizeComponent) : Bool :=
  decide (x1 - s1.LeftOffset < p2.X + s2.Width + s2.RightOffset) &&
  decide (x1 + s1.Width + s1.RightOffset > p2.X - s2.LeftOffset) &&
  decide (y1 - s1.TopOffset < p2.Y + s2.Height + s2.BottomOffset) &&
  decide (y1 + s1.Height + s1.BottomOffset > p2.Y - s2.TopOffset)

/-- The skip test of the obstacle loop: the entity itself, or — when the
entity carries a string `solidexclude` component `g` (the `hasExclude`
flag) that is non-empty (the guard on building `excludeEntities`) — any
obstacle carrying a component named `g`. -/
def skipObstacle (e : Entity) (exclude : Option String) (o : Obstacle) : Bool :=
  decide (o.id = e) ||
  (match exclude with
   | some g => decide (g ≠ "") && decide (g ∈ o.names)
   | none => false)

/-- The mutable locals of `processEntity` during the obstacle loop. -/
structure PhysState where
  newX : ℚ
  newY : ℚ
  velX : ℚ
  velY : ℚ
deriving DecidableEq

/-- One obstacle iteration of `processEntity`: both axis tests are read
from the current candidates, then each blocked axis is reverted and its
velocity zeroed. -/
def obstacleStep (e : Entity) (exclude : Option String) (pos : PositionComponent)
    (size : SizeComponent) (st : PhysState) (o : Obstacle) : PhysState :=
  if skipObstacle e exclude o then st else
  let cX := isColliding st.newX pos.Y size o.pos o.size
  let cY := isColliding pos.X st.newY size o.pos o.size
  let st1 : PhysState := if cX then { st with newX := pos.X, velX := 0 } else st
  if cY then { st1 with newY := pos.Y, velY := 0 } else st1

/-- `processEntity` for one entity and one tick: gravity is added to the
vertical velocity, candidate positions are integrated, every non-skipped
solid obstacle may reject either axis independently, and the final
candidates become the position. -/
def processEntity (e : Entity) (pos : PositionComponent) (vel : VelocityComponent)
    (size : SizeComponent) (exclude : Option String) (obstacles : List Obstacle)
    (gravity dt : ℚ) : PositionComponent × VelocityComponent :=
  let vy := vel.Y + gravity * dt
  let nx := pos.X + vel.X * dt
  let ny := pos.Y + vy * dt
  let stF := obstacles.foldl (obstacleStep e exclude pos size) ⟨nx, ny, vel.X, vy⟩
  (⟨stF.newX, stF.newY⟩, ⟨stF.velX, stF.velY⟩)

/-! ## Concrete instances used by witnesses and counterexamples -/

/-- A fresh registry (`NewECSManager`). -/
def emptyEM : ECSManager Nat := ⟨0, [], [], []⟩

/-- A registry holding one entity created with the stable ident `player`
and one component. -/
def emPlayer : ECSManager Nat :=
  ((emptyEM.AddEntity (some "player")).1).AddComponent 1 "position" 7

/-- A registry with one live entity owning a `position` component and no
stable ident. -/
def emOne : ECSManager Nat := ⟨1, [(1, true)], [], [(1, [("position", 7)])]⟩

/-- A byte sequence from which no gob value decodes. -/
def corruptBlob : GobBlob Nat := GobBlob.corrupt [0, 1, 2]

/-- A 10×10 size component with zero padding offsets. -/
def sizeTen : SizeComponent := ⟨10, 10, 0, 0, 0, 0⟩

/-- The solid entity B of the movement scenario: at (10,0), 10×10. -/
def obstacleB : Obstacle :=
  ⟨2, ⟨10, 0⟩, ⟨10, 10, 0, 0, 0, 0⟩, ["position", "size", "solid"]⟩

/-- A plain rectangular 10×10 collider in group `g`. -/
def collG : ColliderComponent := ⟨"g", false, 0, 0, 10, 10, 0, 0, 0, 0⟩

/-- A cross-shaped collider in group `g`: 20×4 horizontal bar, 4×20
vertical bar. -/
def collCross : ColliderComponent := ⟨"g", true, 0, 0, 10, 10, 20, 4, 4, 20⟩

/-- A handler table registering a handler (all callbacks non-nil) for the
pair of groups (`g`, `g`). -/
def handlersGG : String → String → Option CollisionHandler :=
  fun a b => if a = "g" ∧ b = "g" then some ⟨true, true, true⟩ else none

/-- A world with entities 1 and 2, both plain `g` colliders, overlapping
(positions (0,0) and (5,0)). -/
def wNear : CollisionWorld :=
  ⟨[1, 2],
   fun e =>
     if e = 1 then some (collG, ⟨0, 0⟩, sizeTen)
     else if e = 2 then some (collG, ⟨5, 0⟩, sizeTen)
     else none,
   handlersGG⟩

/-- The same world with entity 2 moved to (100,0): no overlap. -/
def wFar : CollisionWorld :=
  ⟨[1, 2],
   fun e =>
     if e = 1 then some (collG, ⟨0, 0⟩, sizeTen)
     else if e = 2 then some (collG, ⟨100, 0⟩, sizeTen)
     else none,
   handlersGG⟩

/-- Invariant of the nested pair loop: every pair whose overlap test ran
is in the processed set, and no pair's test ran twice. -/
def TickInv (st : TickState) : Prop :=
  (∀ k, k ∈ st.tested → k ∈ st.processed) ∧ ∀ k, st.tested.count k ≤ 1

/-- What one collision tick must see, for a fixed ordered pair, so that
the pair is processed with a fully populated handler and a known overlap
outcome `ov`. -/
def tickHyp (w : CollisionWorld) (e1 e2 : Entity) (ov : Bool) : Prop :=
  w.entities.Nodup ∧ e1 ∈ w.entities ∧ e2 ∈ w.entities ∧
  ∃ c1 p1 s1 c2 p2 s2,
    w.comps e1 = some (c1, p1, s1) ∧ w.comps e2 = some (c2, p2, s2) ∧
    w.handlers c1.Group c2.Group = some ⟨true, true, true⟩ ∧
    checkCollision p1 c1 p2 c2 = ov

/-! ## Association-list lemmas -/

theorem alookup_aerase_self {κ β : Type} [DecidableEq κ] (l : List (κ × β)) (k : κ) :
    alookup (aerase l k) k = none := by
  induction l with
  | nil => rfl
  | cons hd t ih =>
    simp only [aerase, List.filter_cons] at ih ⊢
    by_cases h : hd.1 = k
    · simpa [h] using ih
    · simpa [h, alookup] using ih

theorem mem_map_fst_filter {l : List (Entity × Bool)} {f : Entity × Bool → Bool}
    {e : Entity} (h : e ∈ (l.filter f).map Prod.fst) : e ∈ l.map Prod.fst := by
  obtain ⟨q, hq, rfl⟩ := List.mem_map.mp h
  exact List.mem_map.mpr ⟨q, List.mem_of_mem_filter hq, rfl⟩

theorem count_map_fst_filter (l : List (Entity × Bool)) (f : Entity → Bool) (e : Entity)
    (h : (l.map Prod.fst).Nodup) :
    ((l.filter (fun q => f q.1)).map Prod.fst).count e =
      if (alookup l e).isSome = true ∧ f e = true then 1 else 0 := by
  induction l with
  | nil => simp [alookup]
  | cons hd t ih =>
    obtain ⟨a, b⟩ := hd
    simp only [List.map_cons, List.nodup_cons] at h
    have ht := ih h.2
    by_cases hae : a = e
    · subst hae
      have hnot : ∀ g : Entity × Bool → Bool, ((t.filter g).map Prod.fst).count a = 0 := by
        intro g
        exact List.count_eq_zero.mpr (fun hm => h.1 (mem_map_fst_filter hm))
      by_cases hf : f a = true
      · simp [List.filter_cons, hf, alookup, List.count_cons, hnot]
      · simp [List.filter_cons, hf, alookup, hnot]
    · have hlk : alookup ((a, b) :: t) e = alookup t e := by
        simp [alookup, hae]
      rw [hlk] at *
      by_cases hfa : f a = true
      · simpa [List.filter_cons, hfa, List.count_cons, Ne.symm hae] using ht
      · simpa [List.filter_cons, hfa] using ht

theorem firstIdentOf_all_inl (l : List (IdentKey × Entity)) (e : Entity)
    (h : ∀ p ∈ l, ∃ s, p.1 = Sum.inl s) : ∃ s, firstIdentOf l e = some s := by
  induction l with
  | nil => exact ⟨"", rfl⟩
  | cons hd t ih =>
    obtain ⟨k, v⟩ := hd
    by_cases hv : v = e
    · obtain ⟨s, hs⟩ := h (k, v) (List.mem_cons_self _ _)
      subst hs
      exact ⟨s, by simp [firstIdentOf, hv]⟩
    · have := ih (fun p hp => h p (List.mem_cons_of_mem _ hp))
      simpa [firstIdentOf, hv] using this

theorem foldl_fsEntityStep_indent {α : Type} (d : SerializableECSManager α) :
    ∀ (L : List (Entity × Bool)) (acc : ECSManager α),
      (L.foldl (fsEntityStep d) acc).indentToEntity = acc.indentToEntity := by
  intro L
  induction L with
  | nil => intro acc; rfl
  | cons hd t ih => intro acc; rw [List.foldl_cons, ih]; rfl

theorem fromSerializable_indent {α : Type} (em : ECSManager α)
    (d : SerializableECSManager α) (hid : d.identMap = []) :
    (em.FromSerializable d).indentToEntity = em.indentToEntity := by
  unfold ECSManager.FromSerializable
  rw [hid, List.foldl_nil, foldl_fsEntityStep_indent]

theorem alookup_astore_self {κ β : Type} [DecidableEq κ] (l : List (κ × β)) (k : κ)
    (v : β) : alookup (astore l k v) k = some v := by
  simp [astore, alookup]

theorem alookup_aerase_ne {κ β : Type} [DecidableEq κ] (l : List (κ × β)) (k e : κ)
    (h : e ≠ k) : alookup (aerase l k) e = alookup l e := by
  induction l with
  | nil => rfl
  | cons hd t ih =>
    obtain ⟨a, b⟩ := hd
    simp only [aerase, List.filter_cons] at ih ⊢
    by_cases hk : a = k
    · have hae : ¬(a = e) := fun hc => h (hc ▸ hk)
      have hcond : (decide (a ≠ k)) = false := by simp [hk]
      simp only [hcond, Bool.false_eq_true, if_false]
      simp only [alookup]
      rw [if_neg hae, ih]
    · have hcond : (decide (a ≠ k)) = true := by simp [hk]
      simp only [hcond, if_true]
      simp only [alookup]
      by_cases hae : a = e
      · rw [if_pos hae, if_pos hae]
      · rw [if_neg hae, if_neg hae, ih]

theorem alookup_astore_ne {κ β : Type} [DecidableEq κ] (l : List (κ × β)) (k e : κ)
    (v : β) (h : e ≠ k) : alookup (astore l k v) e = alookup l e := by
  simp only [astore, alookup]
  rw [if_neg (fun hc => h hc.symm)]
  exact alookup_aerase_ne l k e h

theorem map_fst_aerase_nodup {κ β : Type} [DecidableEq κ] (l : List (κ × β)) (k : κ)
    (h : (l.map Prod.fst).Nodup) : ((aerase l k).map Prod.fst).Nodup := by
  induction l with
  | nil => exact h
  | cons hd t ih =>
    simp only [List.map_cons, List.nodup_cons] at h
    simp only [aerase, List.filter_cons]
    by_cases hk : hd.1 = k
    · simp only [hk]
      simp only [decide_not]
      simp [aerase] at ih
      simpa using ih h.2
    · have : (decide (hd.1 ≠ k)) = true := by simpa using hk
      rw [this]
      simp only [if_true, List.map_cons, List.nodup_cons]
      constructor
      · intro hm
        obtain ⟨q, hq, hfst⟩ := List.mem_map.mp hm
        exact h.1 (List.mem_map.mpr ⟨q, List.mem_of_mem_filter hq, hfst⟩)
      · simpa [aerase] using ih h.2

theorem not_mem_map_fst_aerase {κ β : Type} [DecidableEq κ] (l : List (κ × β))
    (k : κ) : k ∉ (aerase l k).map Prod.fst := by
  intro hm
  obtain ⟨q, hq, hfst⟩ := List.mem_map.mp hm
  have := List.of_mem_filter hq
  simp at this
  exact this hfst

theorem map_fst_astore_nodup {κ β : Type} [DecidableEq κ] (l : List (κ × β)) (k : κ)
    (v : β) (h : (l.map Prod.fst).Nodup) :
    ((astore l k v).map Prod.fst).Nodup := by
  simp only [astore, List.map_cons, List.nodup_cons]
  exact ⟨not_mem_map_fst_aerase l k, map_fst_aerase_nodup l k h⟩

/-- `AddEntity` preserves the registry invariant. -/
theorem ECSWF_AddEntity {α : Type} (em : ECSManager α) (ident : Option String)
    (h : ECSWF em) : ECSWF (em.AddEntity ident).1 := by
  have hbody : ∀ em2 : ECSManager α,
      em2.entities = astore em.entities ((em.lastEntityID + 1) % 2 ^ 32) true →
      em2.components = astore em.components ((em.lastEntityID + 1) % 2 ^ 32) [] →
      ECSWF em2 := by
    intro em2 he hcomp
    constructor
    · rw [he]
      exact map_fst_astore_nodup _ _ _ h.entNodup
    · intro e hl
      rw [he] at hl
      rw [hcomp]
      by_cases hk : e = (em.lastEntityID + 1) % 2 ^ 32
      · subst hk
        rw [alookup_astore_self]
        rfl
      · rw [alookup_astore_ne _ _ _ _ hk] at hl
        rw [alookup_astore_ne _ _ _ _ hk]
        exact h.hasStore e hl
  cases ident with
  | some s => exact hbody _ rfl rfl
  | none => exact hbody _ rfl rfl

/-- `RemoveEntity` preserves the registry invariant. -/
theorem ECSWF_RemoveEntity {α : Type} (em : ECSManager α) (e0 : Entity)
    (h : ECSWF em) : ECSWF (em.RemoveEntity e0) := by
  constructor
  · exact map_fst_aerase_nodup _ _ h.entNodup
  · intro e hl
    simp only [ECSManager.RemoveEntity] at hl ⊢
    by_cases hk : e = e0
    · subst hk
      rw [alookup_aerase_self] at hl
      simp at hl
    · rw [alookup_aerase_ne _ _ _ hk] at hl
      rw [alookup_aerase_ne _ _ _ hk]
      exact h.hasStore e hl

/-- `AddComponent` preserves the registry invariant. -/
theorem ECSWF_AddComponent {α : Type} (em : ECSManager α) (e0 : Entity)
    (name : String) (c : α) (h : ECSWF em) :
    ECSWF (em.AddComponent e0 name c) := by
  unfold ECSManager.AddComponent
  by_cases hl : (alookup em.entities e0).isSome = true
  · rw [if_pos hl]
    cases hcm : alookup em.components e0 with
    | none => exact h
    | some cm =>
      constructor
      · exact h.entNodup
      · intro e he
        by_cases hk : e = e0
        · subst hk
          simp [alookup_astore_self]
        · simp only
          rw [alookup_astore_ne _ _ _ _ hk]
          exact h.hasStore e he
  · rw [if_neg hl]
    exact h

/-! ## Claims about the registry (serialization and queries) -/

/-- C1 (code_bug): the code cannot round-trip the registry: as soon as the
stable-id map holds any binding (all API-created bindings have string
keys), `ToSerializable` panics on the `k.(uint32)` type assertion, so
`Encode` produces no blob at all; and since the `identMap` field is
unexported, gob never carries it, so `Decode` leaves the stable-id mapping
of the receiving registry exactly as it was (an empty mapping on a fresh
manager) instead of restoring the original one. -/
theorem C1_roundtrip_code_bug {α : Type} (em : ECSManager α) (s : String) (e : Entity)
    (h : (Sum.inl s, e) ∈ em.indentToEntity) (b : GobBlob α) :
    em.Encode = none ∧ (em.Decode b).1.indentToEntity = em.indentToEntity := by
  constructor
  · have hall : em.indentToEntity.all
        (fun p => match p.1 with | Sum.inl _ => false | Sum.inr _ => true) = false := by
      rw [List.all_eq_false]
      exact ⟨(Sum.inl s, e), h, by simp⟩
    simp [ECSManager.Encode, ECSManager.ToSerializable, hall]
  · cases b with
    | ecsData l ents comps =>
      simpa [ECSManager.Decode, gobDecodeECS] using
        fromSerializable_indent em ⟨l, ents, comps, []⟩ rfl
    | entityData i s c => rfl
    | corrupt bs => rfl

/-- Witness for C1: the failing input is a registry holding one entity
created with the stable ident `player`; encoding it panics, and decoding
any blob never changes a stable-id mapping. -/
theorem C1_roundtrip_code_bug_witness :
    emPlayer.Encode = none ∧
    (emPlayer.Decode corruptBlob).1.indentToEntity = emPlayer.indentToEntity :=
  C1_roundtrip_code_bug emPlayer "player" 1 (List.mem_cons_self _ _) corruptBlob

/-- A registry with no stable idents does encode, and decoding the blob
into a fresh manager restores the id counter, the entity set and the
component stores — but the stable-id mapping field of the blob is gone
(dropped by gob), so only an empty mapping comes back. -/
theorem encode_decode_emOne :
    emOne.Encode = some (GobBlob.ecsData 1 [(1, true)] [(1, [("position", 7)])]) ∧
    emptyEM.Decode (GobBlob.ecsData 1 [(1, true)] [(1, [("position", 7)])]) =
      (⟨1, [(1, true)], [], [(1, [("position", 7)])]⟩, none) := by
  constructor
  · rfl
  · rfl

/-- C8: whenever gob deserialization fails, `Decode` and `DecodeEntity`
return the error to the caller and the registry state is exactly the
input state — nothing is partially applied. -/
theorem C8_decode_error_no_mutation {α : Type} (em : ECSManager α) (b : GobBlob α) :
    (∀ msg, gobDecodeECS b = Except.error msg → em.Decode b = (em, some msg)) ∧
    (∀ msg, gobDecodeEntity b = Except.error msg →
      em.DecodeEntity b = (em, Except.error msg)) := by
  constructor
  · intro msg h
    simp [ECSManager.Decode, h]
  · intro msg h
    simp [ECSManager.DecodeEntity, h]

/-- Witness for C8 at a concrete malformed byte sequence. -/
theorem C8_decode_error_no_mutation_witness :
    emOne.Decode corruptBlob = (emOne, some "gob: decode error") ∧
    emOne.DecodeEntity corruptBlob = (emOne, Except.error "gob: decode error") :=
  ⟨(C8_decode_error_no_mutation emOne corruptBlob).1 _ rfl,
   (C8_decode_error_no_mutation emOne corruptBlob).2 _ rfl⟩

/-- C9: over a well-formed registry, a live entity appears in
`GetEntitiesWithComponents names` iff it holds every listed component
name, and it appears exactly once in that case (zero times otherwise). -/
theorem C9_query_correctness {α : Type} (em : ECSManager α) (names : List String)
    (e : Entity) (hwf : ECSWF em) (hlive : (alookup em.entities e).isSome = true) :
    (e ∈ em.GetEntitiesWithComponents names ↔ ∀ n ∈ names, em.HasComponent e n = true) ∧
    (em.GetEntitiesWithComponents names).count e =
      if ∀ n ∈ names, em.HasComponent e n = true then 1 else 0 := by
  have hq : em.GetEntitiesWithComponents names =
      (em.entities.filter (fun q => entPred em names q.1)).map Prod.fst := rfl
  have hcount := count_map_fst_filter em.entities (entPred em names) e hwf.entNodup
  obtain ⟨cm, hcm⟩ := Option.isSome_iff_exists.mp (hwf.hasStore e hlive)
  have hpred : entPred em names e = true ↔ ∀ n ∈ names, em.HasComponent e n = true := by
    unfold entPred
    rw [hcm]
    rw [List.all_eq_true]
    constructor
    · intro hp n hn
      simp [ECSManager.HasComponent, hcm]
      exact hp n hn
    · intro hp n hn
      have := hp n hn
      simpa [ECSManager.HasComponent, hcm] using this
  have hcount2 : (em.GetEntitiesWithComponents names).count e =
      if ∀ n ∈ names, em.HasComponent e n = true then 1 else 0 := by
    rw [hq, hcount]
    exact if_congr (by simp [hlive, hpred]) rfl rfl
  refine ⟨?_, hcount2⟩
  constructor
  · intro hm
    by_contra hno
    have : (em.GetEntitiesWithComponents names).count e = 0 := by
      rw [hcount2, if_neg hno]
    exact (List.count_pos_iff.mpr hm).ne' this
  · intro hyes
    have : 0 < (em.GetEntitiesWithComponents names).count e := by
      rw [hcount2, if_pos hyes]
      exact Nat.zero_lt_one
    exact List.count_pos_iff.mp this

/-- Witness for C9 on a concrete registry: entity 1 holds `position`, so
the query over `position` returns it exactly once. -/
theorem C9_query_correctness_witness :
    (1 ∈ emOne.GetEntitiesWithComponents ["position"]) ∧
    (emOne.GetEntitiesWithComponents ["position"]).count 1 = 1 := by
  have hwf : ECSWF emOne := by
    constructor
    · decide
    · intro e he
      by_cases h1 : (1 : Nat) = e
      · subst h1; rfl
      · exfalso
        simp [emOne, alookup, h1] at he
  have h := C9_query_correctness emOne ["position"] 1 hwf (by decide)
  refine ⟨h.1.mpr (by decide), ?_⟩
  rw [h.2]
  decide

/-- C10: `EncodeEntity` succeeds only when the entity's component store
exists; a never-created or removed entity has no store (removal deletes
it), and then `EncodeEntity` panics on the `v.(*sync.Map)` type assertion
instead of returning an error value. -/
theorem C10_encode_entity_panics {α : Type} (em : ECSManager α) (e : Entity) :
    (alookup em.components e = none → em.EncodeEntity e = none) ∧
    (alookup (em.RemoveEntity e).components e = none) ∧
    (∀ cm, alookup em.components e = some cm →
      (∀ p ∈ em.indentToEntity, ∃ s, p.1 = Sum.inl s) →
      ∃ ident, em.EncodeEntity e = some (GobBlob.entityData e ident cm)) := by
  refine ⟨?_, ?_, ?_⟩
  · intro h
    simp [ECSManager.EncodeEntity, h]
  · exact alookup_aerase_self em.components e
  · intro cm hcm hall
    obtain ⟨s, hs⟩ := firstIdentOf_all_inl em.indentToEntity e hall
    exact ⟨s, by simp [ECSManager.EncodeEntity, hcm, hs]⟩

/-- Witness for C10: in `emOne`, encoding the never-created entity 2
panics, removal of entity 1 deletes its store, and encoding the live
entity 1 returns a blob. -/
theorem C10_encode_entity_panics_witness :
    emOne.EncodeEntity 2 = none ∧
    alookup (emOne.RemoveEntity 1).components 1 = none ∧
    (∃ ident, emOne.EncodeEntity 1 =
      some (GobBlob.entityData 1 ident [("position", 7)])) :=
  ⟨(C10_encode_entity_panics emOne 2).1 rfl,
   (C10_encode_entity_panics emOne 1).2.1,
   (C10_encode_entity_panics emOne 1).2.2 [("position", 7)] rfl
     (by intro p hp; simp [emOne] at hp)⟩

/-! ## Claims about the collision engine -/

/-- C5: when the first collider is cross-shaped, the pair overlaps iff the
first entity's horizontal bar or its vertical bar overlaps the rectangle
built from the second collider's offset, width and height — whatever the
second collider's shape is (its cross decomposition is never consulted,
since the result only reads `OffsetX`, `OffsetY`, `Width`, `Height` of
`c2`). -/
theorem C5_cross_first_or (p1 : PositionComponent) (c1 : ColliderComponent)
    (p2 : PositionComponent) (c2 : ColliderComponent) (h : c1.CrossShape = true) :
    checkCollision p1 c1 p2 c2 =
      (rectOverlap (p1.X + c1.OffsetX - c1.HorizWidth / 2)
          (p1.Y + c1.OffsetY - c1.HorizHeight / 2) c1.HorizWidth c1.HorizHeight
          (p2.X + c2.OffsetX) (p2.Y + c2.OffsetY) c2.Width c2.Height ||
        rectOverlap (p1.X + c1.OffsetX - c1.VertWidth / 2)
          (p1.Y + c1.OffsetY - c1.VertHeight / 2) c1.VertWidth c1.VertHeight
          (p2.X + c2.OffsetX) (p2.Y + c2.OffsetY) c2.Width c2.Height) := by
  simp [checkCollision, h]

/-- Witness for C5 with both colliders cross-shaped: the test reduces to
the first cross's two bars against the second collider's plain
rectangle. -/
theorem C5_cross_first_or_witness :
    checkCollision ⟨0, 0⟩ collCross ⟨12, 0⟩ collCross =
      (rectOverlap (0 + 0 - 20 / 2) (0 + 0 - 4 / 2) 20 4 (12 + 0) (0 + 0) 10 10 ||
        rectOverlap (0 + 0 - 4 / 2) (0 + 0 - 20 / 2) 4 20 (12 + 0) (0 + 0) 10 10) :=
  C5_cross_first_or ⟨0, 0⟩ collCross ⟨12, 0⟩ collCross rfl

/-- C2 (counterexample): the processed set is keyed by the ordered pair,
not the unordered one.  In a two-entity world whose single group has a
handler registered for (g, g), one tick runs the overlap test for both
ordered pairs (1,2) and (2,1) and dispatches Enter twice — refuting "the
overlap test and handler dispatch run for at most one of the ordered
pairs". -/
theorem C2_unordered_dedup_counterexample :
    (collisionUpdate wNear []).2.2 = [(1, 2), (2, 1)] ∧
    (collisionUpdate wNear []).1 =
      [⟨CollisionPhase.enter, 1, 2⟩, ⟨CollisionPhase.enter, 2, 1⟩] := by
  norm_num [collisionUpdate, phase1, pairsOf, pairStep, leaveStep, wNear, collG,
    sizeTen, handlersGG, checkCollision, rectOverlap, List.flatMap, List.foldl]

theorem TickInv_push (st : TickState) (k0 : CollisionKey) (h : TickInv st)
    (hpr : k0 ∉ st.processed) (cur prev : List CollisionKey)
    (evs : List CollisionEvent) :
    TickInv ⟨k0 :: st.processed, cur, prev, evs, st.tested ++ [k0]⟩ := by
  constructor
  · intro k hk
    rw [List.mem_append] at hk
    rcases hk with hk | hk
    · exact List.mem_cons_of_mem _ (h.1 k hk)
    · simp only [List.mem_singleton] at hk
      subst hk
      exact List.mem_cons_self _ _
  · intro k
    have hk0 : st.tested.count k0 = 0 :=
      List.count_eq_zero.mpr (fun hm => hpr (h.1 k0 hm))
    rw [List.count_append]
    by_cases hk : k = k0
    · subst hk
      simp [hk0]
    · have hz : List.count k [k0] = 0 := by
        simp [List.count_singleton]
        exact fun hc => absurd hc.symm hk
      rw [hz]
      simpa using h.2 k

theorem pairStep_TickInv (w : CollisionWorld) (st : TickState) (k0 : CollisionKey)
    (h : TickInv st) : TickInv (pairStep w st k0) := by
  by_cases h12 : k0.1 = k0.2
  · simpa [pairStep, h12] using h
  · cases hc1 : w.comps k0.1 with
    | none => simpa [pairStep, h12, hc1] using h
    | some t1 =>
      obtain ⟨c1, p1, s1⟩ := t1
      cases hc2 : w.comps k0.2 with
      | none => simpa [pairStep, h12, hc1, hc2] using h
      | some t2 =>
        obtain ⟨c2, p2, s2⟩ := t2
        cases hh : w.handlers c1.Group c2.Group with
        | none => simpa [pairStep, h12, hc1, hc2, hh] using h
        | some hd =>
          by_cases hpr : k0 ∈ st.processed
          · simpa [pairStep, h12, hc1, hc2, hh, hpr] using h
          · cases hov : checkCollision p1 c1 p2 c2 with
            | false =>
              simpa [pairStep, h12, hc1, hc2, hh, hpr, hov] using
                TickInv_push st k0 h hpr st.current st.prev st.events
            | true =>
              by_cases hpv : k0 ∈ st.prev
              · simpa [pairStep, h12, hc1, hc2, hh, hpr, hov, hpv] using
                  TickInv_push st k0 h hpr (k0 :: st.current) st.prev
                    (st.events ++
                      (if hd.hasStay then [⟨CollisionPhase.stay, k0.1, k0.2⟩] else []))
              · simpa [pairStep, h12, hc1, hc2, hh, hpr, hov, hpv] using
                  TickInv_push st k0 h hpr (k0 :: st.current) (k0 :: st.prev)
                    (st.events ++
                      (if hd.hasEnter then [⟨CollisionPhase.enter, k0.1, k0.2⟩] else []))

theorem foldl_pairStep_TickInv (w : CollisionWorld) :
    ∀ (L : List CollisionKey) (st : TickState), TickInv st →
      TickInv (L.foldl (pairStep w) st) := by
  intro L
  induction L with
  | nil => intro st h; exact h
  | cons j t ih =>
    intro st h
    rw [List.foldl_cons]
    exact ih _ (pairStep_TickInv w st j h)

/-- C2 (amended): during one tick every ordered pair's overlap test and
handler dispatch run at most once — the processed set dedups ordered
pairs, while the two orientations of an unordered pair are processed
independently. -/
theorem C2_ordered_dedup (w : CollisionWorld) (prev : List CollisionKey)
    (k : CollisionKey) : ((collisionUpdate w prev).2.2).count k ≤ 1 := by
  have hr : (collisionUpdate w prev).2.2 = (phase1 w prev).tested := rfl
  rw [hr]
  have h0 : TickInv (⟨[], [], prev, [], []⟩ : TickState) := by
    constructor
    · intro k hk
      simp at hk
    · intro k
      simp
  exact (foldl_pairStep_TickInv w (pairsOf w.entities) _ h0).2 k

/-! ### Projecting one ordered pair out of a collision tick -/

theorem eventsFor_nil (k : CollisionKey) : eventsFor k [] = [] := rfl

theorem eventsFor_append (k : CollisionKey) (l1 l2 : List CollisionEvent) :
    eventsFor k (l1 ++ l2) = eventsFor k l1 ++ eventsFor k l2 := by
  simp [eventsFor]

theorem eventsFor_single_self (ph : CollisionPhase) (k : CollisionKey) :
    eventsFor k [⟨ph, k.1, k.2⟩] = [⟨ph, k.1, k.2⟩] := by
  simp [eventsFor]

theorem eventsFor_if_single_ne (ph : CollisionPhase) (flag : Bool)
    (j k : CollisionKey) (hjk : j ≠ k) :
    eventsFor k (if flag then [⟨ph, j.1, j.2⟩] else []) = [] := by
  cases flag
  · rfl
  · simp [eventsFor, hjk]

theorem eventsFor_append_null (k : CollisionKey) (evs l : List CollisionEvent)
    (h : eventsFor k l = []) : eventsFor k (evs ++ l) = eventsFor k evs := by
  rw [eventsFor_append, h, List.append_nil]

theorem pairStep_other (w : CollisionWorld) (st : TickState) (j k : CollisionKey)
    (hjk : j ≠ k) :
    eventsFor k (pairStep w st j).events = eventsFor k st.events ∧
    ((k ∈ (pairStep w st j).prev) ↔ k ∈ st.prev) ∧
    ((k ∈ (pairStep w st j).current) ↔ k ∈ st.current) ∧
    ((k ∈ (pairStep w st j).processed) ↔ k ∈ st.processed) := by
  have hkj : k ≠ j := Ne.symm hjk
  by_cases h12 : j.1 = j.2
  · simp [pairStep, h12]
  · cases hc1 : w.comps j.1 with
    | none => simp [pairStep, h12, hc1]
    | some t1 =>
      obtain ⟨c1, p1, s1⟩ := t1
      cases hc2 : w.comps j.2 with
      | none => simp [pairStep, h12, hc1, hc2]
      | some t2 =>
        obtain ⟨c2, p2, s2⟩ := t2
        cases hh : w.handlers c1.Group c2.Group with
        | none => simp [pairStep, h12, hc1, hc2, hh]
        | some hd =>
          by_cases hpr : j ∈ st.processed
          · simp [pairStep, h12, hc1, hc2, hh, hpr]
          · cases hov : checkCollision p1 c1 p2 c2 with
            | false =>
              refine ⟨?_, ?_, ?_, ?_⟩ <;>
                simp [pairStep, h12, hc1, hc2, hh, hpr, hov, List.mem_cons, hkj]
            | true =>
              by_cases hpv : j ∈ st.prev
              · refine ⟨?_, ?_, ?_, ?_⟩ <;>
                  simp [pairStep, h12, hc1, hc2, hh, hpr, hov, hpv, List.mem_cons,
                    hkj, eventsFor_append_null _ _ _
                      (eventsFor_if_single_ne _ _ _ _ hjk)]
              · refine ⟨?_, ?_, ?_, ?_⟩ <;>
                  simp [pairStep, h12, hc1, hc2, hh, hpr, hov, hpv, List.mem_cons,
                    hkj, eventsFor_append_null _ _ _
                      (eventsFor_if_single_ne _ _ _ _ hjk)]

theorem foldl_pairStep_not_mem (w : CollisionWorld) (k : CollisionKey) :
    ∀ (L : List CollisionKey) (st : TickState), k ∉ L →
      eventsFor k (L.foldl (pairStep w) st).events = eventsFor k st.events ∧
      ((k ∈ (L.foldl (pairStep w) st).prev) ↔ k ∈ st.prev) ∧
      ((k ∈ (L.foldl (pairStep w) st).current) ↔ k ∈ st.current) ∧
      ((k ∈ (L.foldl (pairStep w) st).processed) ↔ k ∈ st.processed) := by
  intro L
  induction L with
  | nil => intro st _; exact ⟨rfl, Iff.rfl, Iff.rfl, Iff.rfl⟩
  | cons j t ih =>
    intro st hk
    have hjk : j ≠ k := fun h => hk (h ▸ List.mem_cons_self _ _)
    have hkt : k ∉ t := fun h => hk (List.mem_cons_of_mem _ h)
    have hstep := pairStep_other w st j k hjk
    have hrest := ih (pairStep w st j) hkt
    rw [List.foldl_cons]
    exact ⟨hrest.1.trans hstep.1, hrest.2.1.trans hstep.2.1,
      hrest.2.2.1.trans hstep.2.2.1, hrest.2.2.2.trans hstep.2.2.2⟩

theorem pairStep_at (w : CollisionWorld) (st : TickState) (k : CollisionKey)
    (c1 : ColliderComponent) (p1 : PositionComponent) (s1 : SizeComponent)
    (c2 : ColliderComponent) (p2 : PositionComponent) (s2 : SizeComponent)
    (hne : k.1 ≠ k.2) (h1 : w.comps k.1 = some (c1, p1, s1))
    (h2 : w.comps k.2 = some (c2, p2, s2))
    (hh : w.handlers c1.Group c2.Group = some ⟨true, true, true⟩)
    (hpr : k ∉ st.processed) :
    eventsFor k (pairStep w st k).events =
      eventsFor k st.events ++
        (if checkCollision p1 c1 p2 c2 = true then
          (if k ∈ st.prev then [⟨CollisionPhase.stay, k.1, k.2⟩]
           else [⟨CollisionPhase.enter, k.1, k.2⟩])
         else []) ∧
    ((k ∈ (pairStep w st k).prev) ↔
      (k ∈ st.prev ∨ checkCollision p1 c1 p2 c2 = true)) ∧
    ((k ∈ (pairStep w st k).current) ↔
      (k ∈ st.current ∨ checkCollision p1 c1 p2 c2 = true)) := by
  cases hov : checkCollision p1 c1 p2 c2 with
  | false =>
    refine ⟨?_, ?_, ?_⟩ <;>
      simp [pairStep, hne, h1, h2, hh, hpr, hov]
  | true =>
    by_cases hpv : k ∈ st.prev
    · refine ⟨?_, ?_, ?_⟩ <;>
        simp [pairStep, hne, h1, h2, hh, hpr, hov, hpv, List.mem_cons,
          eventsFor_append, eventsFor_single_self]
    · refine ⟨?_, ?_, ?_⟩ <;>
        simp [pairStep, hne, h1, h2, hh, hpr, hov, hpv, List.mem_cons,
          eventsFor_append, eventsFor_single_self]

theorem foldl_pairStep_main (w : CollisionWorld) (k : CollisionKey)
    (c1 : ColliderComponent) (p1 : PositionComponent) (s1 : SizeComponent)
    (c2 : ColliderComponent) (p2 : PositionComponent) (s2 : SizeComponent)
    (hne : k.1 ≠ k.2) (h1 : w.comps k.1 = some (c1, p1, s1))
    (h2 : w.comps k.2 = some (c2, p2, s2))
    (hh : w.handlers c1.Group c2.Group = some ⟨true, true, true⟩) :
    ∀ (L : List CollisionKey) (st : TickState), L.count k = 1 → k ∉ st.processed →
      eventsFor k (L.foldl (pairStep w) st).events =
        eventsFor k st.events ++
          (if checkCollision p1 c1 p2 c2 = true then
            (if k ∈ st.prev then [⟨CollisionPhase.stay, k.1, k.2⟩]
             else [⟨CollisionPhase.enter, k.1, k.2⟩])
           else []) ∧
      ((k ∈ (L.foldl (pairStep w) st).prev) ↔
        (k ∈ st.prev ∨ checkCollision p1 c1 p2 c2 = true)) ∧
      ((k ∈ (L.foldl (pairStep w) st).current) ↔
        (k ∈ st.current ∨ checkCollision p1 c1 p2 c2 = true)) := by
  intro L
  induction L with
  | nil => intro st hcount; simp at hcount
  | cons j t ih =>
    intro st hcount hpr
    by_cases hj : k = j
    · subst hj
      have hkt : k ∉ t := by
        rw [List.count_cons_self] at hcount
        exact List.count_eq_zero.mp (by omega)
      have hstep := pairStep_at w st k c1 p1 s1 c2 p2 s2 hne h1 h2 hh hpr
      have hrest := foldl_pairStep_not_mem w k t (pairStep w st k) hkt
      rw [List.foldl_cons]
      refine ⟨hrest.1.trans hstep.1, hrest.2.1.trans hstep.2.1,
        hrest.2.2.1.trans hstep.2.2⟩
    · have hji : ¬(j = k) := fun h => hj h.symm
      have hcnt : t.count k = 1 := by
        rw [List.count_cons] at hcount
        simpa [hji] using hcount
      have hstep := pairStep_other w st j k (fun h => hj h.symm)
      have hpr2 : k ∉ (pairStep w st j).processed := fun h =>
        hpr (hstep.2.2.2.mp h)
      have hrest := ih (pairStep w st j) hcnt hpr2
      rw [List.foldl_cons]
      refine ⟨?_, ?_, ?_⟩
      · rw [hrest.1, hstep.1]
        congr 1
        exact if_congr Iff.rfl (if_congr hstep.2.1 rfl rfl) rfl
      · rw [hrest.2.1]
        exact or_congr hstep.2.1 Iff.rfl
      · rw [hrest.2.2]
        exact or_congr hstep.2.2.1 Iff.rfl

theorem leaveStep_other (w : CollisionWorld) (cur : List CollisionKey)
    (acc : List CollisionKey × List CollisionEvent) (j k : CollisionKey)
    (hjk : j ≠ k) :
    eventsFor k (leaveStep w cur acc j).2 = eventsFor k acc.2 ∧
    ((k ∈ (leaveStep w cur acc j).1) ↔ k ∈ acc.1) := by
  have hkj : k ≠ j := Ne.symm hjk
  by_cases hcur : j ∈ cur
  · simp [leaveStep, hcur, List.mem_append, hkj]
  · cases hc1 : w.comps j.1 with
    | none => simp [leaveStep, hcur, hc1]
    | some t1 =>
      obtain ⟨c1, p1, s1⟩ := t1
      cases hc2 : w.comps j.2 with
      | none => simp [leaveStep, hcur, hc1, hc2]
      | some t2 =>
        obtain ⟨c2, p2, s2⟩ := t2
        cases hh : w.handlers c1.Group c2.Group with
        | none => simp [leaveStep, hcur, hc1, hc2, hh]
        | some hd =>
          exact ⟨by
            simp [leaveStep, hcur, hc1, hc2, hh,
              eventsFor_append_null _ _ _ (eventsFor_if_single_ne _ _ _ _ hjk)],
            by simp [leaveStep, hcur, hc1, hc2, hh]⟩

theorem foldl_leaveStep_not_mem (w : CollisionWorld) (cur : List CollisionKey)
    (k : CollisionKey) :
    ∀ (P : List CollisionKey) (acc : List CollisionKey × List CollisionEvent),
      k ∉ P →
      eventsFor k (P.foldl (leaveStep w cur) acc).2 = eventsFor k acc.2 ∧
      ((k ∈ (P.foldl (leaveStep w cur) acc).1) ↔ k ∈ acc.1) := by
  intro P
  induction P with
  | nil => intro acc _; exact ⟨rfl, Iff.rfl⟩
  | cons j t ih =>
    intro acc hk
    have hjk : j ≠ k := fun h => hk (h ▸ List.mem_cons_self _ _)
    have hkt : k ∉ t := fun h => hk (List.mem_cons_of_mem _ h)
    have hstep := leaveStep_other w cur acc j k hjk
    have hrest := ih (leaveStep w cur acc j) hkt
    rw [List.foldl_cons]
    exact ⟨hrest.1.trans hstep.1, hrest.2.trans hstep.2⟩

theorem leaveStep_at (w : CollisionWorld) (cur : List CollisionKey)
    (acc : List CollisionKey × List CollisionEvent) (k : CollisionKey)
    (c1 : ColliderComponent) (p1 : PositionComponent) (s1 : SizeComponent)
    (c2 : ColliderComponent) (p2 : PositionComponent) (s2 : SizeComponent)
    (h1 : w.comps k.1 = some (c1, p1, s1)) (h2 : w.comps k.2 = some (c2, p2, s2))
    (hh : w.handlers c1.Group c2.Group = some ⟨true, true, true⟩) :
    eventsFor k (leaveStep w cur acc k).2 =
      eventsFor k acc.2 ++
        (if k ∈ cur then [] else [⟨CollisionPhase.leave, k.1, k.2⟩]) ∧
    ((k ∈ (leaveStep w cur acc k).1) ↔ (k ∈ acc.1 ∨ k ∈ cur)) := by
  by_cases hcur : k ∈ cur
  · constructor
    · simp [leaveStep, hcur]
    · simp [leaveStep, hcur, List.mem_append]
  · constructor
    · simp [leaveStep, hcur, h1, h2, hh, eventsFor_append, eventsFor_single_self]
    · simp [leaveStep, hcur, h1, h2, hh]

theorem foldl_leaveStep_main (w : CollisionWorld) (cur : List CollisionKey)
    (k : CollisionKey)
    (c1 : ColliderComponent) (p1 : PositionComponent) (s1 : SizeComponent)
    (c2 : ColliderComponent) (p2 : PositionComponent) (s2 : SizeComponent)
    (h1 : w.comps k.1 = some (c1, p1, s1)) (h2 : w.comps k.2 = some (c2, p2, s2))
    (hh : w.handlers c1.Group c2.Group = some ⟨true, true, true⟩) :
    ∀ (P : List CollisionKey) (acc : List CollisionKey × List CollisionEvent),
      P.count k = 1 →
      eventsFor k (P.foldl (leaveStep w cur) acc).2 =
        eventsFor k acc.2 ++
          (if k ∈ cur then [] else [⟨CollisionPhase.leave, k.1, k.2⟩]) ∧
      ((k ∈ (P.foldl (leaveStep w cur) acc).1) ↔ (k ∈ acc.1 ∨ k ∈ cur)) := by
  intro P
  induction P with
  | nil => intro acc hcount; simp at hcount
  | cons j t ih =>
    intro acc hcount
    by_cases hj : k = j
    · subst hj
      have hkt : k ∉ t := by
        rw [List.count_cons_self] at hcount
        exact List.count_eq_zero.mp (by omega)
      have hstep := leaveStep_at w cur acc k c1 p1 s1 c2 p2 s2 h1 h2 hh
      have hrest := foldl_leaveStep_not_mem w cur k t (leaveStep w cur acc k) hkt
      rw [List.foldl_cons]
      exact ⟨hrest.1.trans hstep.1, hrest.2.trans hstep.2⟩
    · have hji : ¬(j = k) := fun h => hj h.symm
      have hcnt : t.count k = 1 := by
        rw [List.count_cons] at hcount
        simpa [hji] using hcount
      have hstep := leaveStep_other w cur acc j k hji
      have hrest := ih (leaveStep w cur acc j) hcnt
      rw [List.foldl_cons]
      refine ⟨?_, ?_⟩
      · rw [hrest.1, hstep.1]
      · rw [hrest.2]
        exact or_congr hstep.2 Iff.rfl

theorem pairStep_prev_count (w : CollisionWorld) (st : TickState) (k0 : CollisionKey)
    (h : ∀ j, st.prev.count j ≤ 1) : ∀ j, (pairStep w st k0).prev.count j ≤ 1 := by
  intro j
  by_cases h12 : k0.1 = k0.2
  · simpa [pairStep, h12] using h j
  · cases hc1 : w.comps k0.1 with
    | none => simpa [pairStep, h12, hc1] using h j
    | some t1 =>
      obtain ⟨c1, p1, s1⟩ := t1
      cases hc2 : w.comps k0.2 with
      | none => simpa [pairStep, h12, hc1, hc2] using h j
      | some t2 =>
        obtain ⟨c2, p2, s2⟩ := t2
        cases hh : w.handlers c1.Group c2.Group with
        | none => simpa [pairStep, h12, hc1, hc2, hh] using h j
        | some hd =>
          by_cases hpr : k0 ∈ st.processed
          · simpa [pairStep, h12, hc1, hc2, hh, hpr] using h j
          · cases hov : checkCollision p1 c1 p2 c2 with
            | false => simpa [pairStep, h12, hc1, hc2, hh, hpr, hov] using h j
            | true =>
              by_cases hpv : k0 ∈ st.prev
              · simpa [pairStep, h12, hc1, hc2, hh, hpr, hov, hpv] using h j
              · have hz : st.prev.count k0 = 0 := List.count_eq_zero.mpr hpv
                have hmain : (k0 :: st.prev).count j ≤ 1 := by
                  rw [← List.singleton_append, List.count_append]
                  by_cases hjk : j = k0
                  · subst hjk
                    simp [hz, List.count_singleton]
                  · have hcs : List.count j [k0] = 0 :=
                      List.count_eq_zero.mpr (by simp [hjk])
                    rw [hcs]
                    simpa using h j
                simpa [pairStep, h12, hc1, hc2, hh, hpr, hov, hpv] using hmain

theorem foldl_pairStep_prev_count (w : CollisionWorld) :
    ∀ (L : List CollisionKey) (st : TickState), (∀ j, st.prev.count j ≤ 1) →
      ∀ j, (L.foldl (pairStep w) st).prev.count j ≤ 1 := by
  intro L
  induction L with
  | nil => intro st h; exact h
  | cons j0 t ih =>
    intro st h
    rw [List.foldl_cons]
    exact ih _ (pairStep_prev_count w st j0 h)

theorem leaveStep_kept_count (w : CollisionWorld) (cur : List CollisionKey)
    (acc : List CollisionKey × List CollisionEvent) (j0 : CollisionKey)
    (j : CollisionKey) :
    ((leaveStep w cur acc j0).1).count j ≤ acc.1.count j + List.count j [j0] := by
  by_cases hcur : j0 ∈ cur
  · simp [leaveStep, hcur, List.count_append]
  · cases hc1 : w.comps j0.1 with
    | none => simp [leaveStep, hcur, hc1]
    | some t1 =>
      obtain ⟨c1, p1, s1⟩ := t1
      cases hc2 : w.comps j0.2 with
      | none => simp [leaveStep, hcur, hc1, hc2]
      | some t2 =>
        obtain ⟨c2, p2, s2⟩ := t2
        cases hh : w.handlers c1.Group c2.Group with
        | none => simp [leaveStep, hcur, hc1, hc2, hh]
        | some hd => simp [leaveStep, hcur, hc1, hc2, hh]

theorem foldl_leaveStep_kept_count (w : CollisionWorld) (cur : List CollisionKey)
    (j : CollisionKey) :
    ∀ (P : List CollisionKey) (acc : List CollisionKey × List CollisionEvent),
      ((P.foldl (leaveStep w cur) acc).1).count j ≤ acc.1.count j + P.count j := by
  intro P
  induction P with
  | nil => intro acc; simp
  | cons j0 t ih =>
    intro acc
    rw [List.foldl_cons, ← List.singleton_append, List.count_append]
    have h1 := ih (leaveStep w cur acc j0)
    have h2 := leaveStep_kept_count w cur acc j0 j
    omega

theorem count_map_pair (a : Entity) (l : List Entity) (ka kb : Entity) :
    (l.map (fun b => (a, b))).count (ka, kb) = if ka = a then l.count kb else 0 := by
  induction l with
  | nil => simp
  | cons b t ih =>
    rw [List.map_cons, List.count_cons, ih, List.count_cons]
    by_cases h1 : ka = a
    · subst h1
      by_cases h2 : kb = b
      · subst h2
        simp
      · simp [Ne.symm h2]
    · have hx : ¬((a, b) = (ka, kb)) := by
        intro hc
        injection hc with hA hB
        exact h1 hA.symm
      simp [h1, hx]

theorem count_pairsOf_aux (l : List Entity) (ka kb : Entity) :
    ∀ outer : List Entity,
      (outer.flatMap (fun a => l.map (fun b => (a, b)))).count (ka, kb) =
        outer.count ka * l.count kb := by
  intro outer
  induction outer with
  | nil => simp
  | cons a t ih =>
    rw [List.flatMap_cons, List.count_append, ih, count_map_pair, List.count_cons]
    by_cases h : ka = a
    · subst h
      simp [Nat.add_mul]
      ring
    · have hbeq : ¬(a = ka) := fun hc => h hc.symm
      simp [h, hbeq]

theorem count_pairsOf (l : List Entity) (ka kb : Entity) :
    (pairsOf l).count (ka, kb) = l.count ka * l.count kb :=
  count_pairsOf_aux l ka kb l

/-- What one `collisionUpdate` tick does for one fixed processed ordered
pair, as a function of the overlap outcome and the tracked set: Stay on a
persisting overlap, Enter on a new one, Leave once when a tracked overlap
disappears, nothing otherwise; afterwards the pair is tracked iff it
overlapped, and the tracked set still holds each key at most once. -/
theorem collisionUpdate_pair (w : CollisionWorld) (e1 e2 : Entity) (ov : Bool)
    (hne : e1 ≠ e2) (ht : tickHyp w e1 e2 ov) (prev : List CollisionKey)
    (hc : ∀ j, prev.count j ≤ 1) :
    eventsFor (e1, e2) (collisionUpdate w prev).1 =
      (if ov = true then
        (if (e1, e2) ∈ prev then [⟨CollisionPhase.stay, e1, e2⟩]
         else [⟨CollisionPhase.enter, e1, e2⟩])
       else (if (e1, e2) ∈ prev then [⟨CollisionPhase.leave, e1, e2⟩] else [])) ∧
    (((e1, e2) ∈ (collisionUpdate w prev).2.1) ↔ ov = true) ∧
    (∀ j, ((collisionUpdate w prev).2.1).count j ≤ 1) := by
  obtain ⟨hnd, he1, he2, c1, p1, s1, c2, p2, s2, h1, h2, hh, hov⟩ := ht
  have hcL : (pairsOf w.entities).count (e1, e2) = 1 := by
    rw [count_pairsOf, List.count_eq_one_of_mem hnd he1,
      List.count_eq_one_of_mem hnd he2]
  have hmain := foldl_pairStep_main w (e1, e2) c1 p1 s1 c2 p2 s2 hne h1 h2 hh
    (pairsOf w.entities) ⟨[], [], prev, [], []⟩ hcL (by simp)
  have hphase : (pairsOf w.entities).foldl (pairStep w)
      (⟨[], [], prev, [], []⟩ : TickState) = phase1 w prev := rfl
  rw [hphase] at hmain
  have hev1 : eventsFor (e1, e2) (phase1 w prev).events =
      (if ov = true then
        (if (e1, e2) ∈ prev then [⟨CollisionPhase.stay, e1, e2⟩]
         else [⟨CollisionPhase.enter, e1, e2⟩])
       else []) := by
    rw [hmain.1, hov]
    rfl
  have hprev : ((e1, e2) ∈ (phase1 w prev).prev) ↔ ((e1, e2) ∈ prev ∨ ov = true) := by
    rw [← hov]
    exact hmain.2.1
  have hcur : ((e1, e2) ∈ (phase1 w prev).current) ↔ ov = true := by
    rw [← hov]
    have := hmain.2.2
    simpa using this
  have hpc : ∀ j, (phase1 w prev).prev.count j ≤ 1 :=
    foldl_pairStep_prev_count w (pairsOf w.entities) ⟨[], [], prev, [], []⟩ hc
  have hu1 : (collisionUpdate w prev).1 =
      (phase1 w prev).events ++
        ((phase1 w prev).prev.foldl (leaveStep w (phase1 w prev).current) ([], [])).2 :=
    rfl
  have hu2 : (collisionUpdate w prev).2.1 =
      ((phase1 w prev).prev.foldl (leaveStep w (phase1 w prev).current) ([], [])).1 :=
    rfl
  have hkept : ∀ j, ((collisionUpdate w prev).2.1).count j ≤ 1 := by
    intro j
    rw [hu2]
    have := foldl_leaveStep_kept_count w (phase1 w prev).current j
      (phase1 w prev).prev ([], [])
    have hj := hpc j
    simp at this
    omega
  by_cases hmem : (e1, e2) ∈ (phase1 w prev).prev
  · have hcnt1 : (phase1 w prev).prev.count (e1, e2) = 1 :=
      Nat.le_antisymm (hpc _) (List.count_pos_iff.mpr hmem)
    have hsw := foldl_leaveStep_main w (phase1 w prev).current (e1, e2)
      c1 p1 s1 c2 p2 s2 h1 h2 hh (phase1 w prev).prev ([], []) hcnt1
    refine ⟨?_, ?_, hkept⟩
    · rw [hu1, eventsFor_append, hev1, hsw.1]
      cases hovb : ov with
      | true =>
        have hcc : (e1, e2) ∈ (phase1 w prev).current := hcur.mpr hovb
        simp [hcc, eventsFor_nil]
      | false =>
        have hcc : (e1, e2) ∉ (phase1 w prev).current := fun h =>
          by simp [hcur.mp h] at hovb
        have hpmem : (e1, e2) ∈ prev := by
          rcases hprev.mp hmem with h | h
          · exact h
          · rw [hovb] at h; exact absurd h (by simp)
        simp [hcc, hpmem, eventsFor]
    · rw [hu2, hsw.2]
      simpa using hcur
  · have hsw := foldl_leaveStep_not_mem w (phase1 w prev).current (e1, e2)
      (phase1 w prev).prev ([], []) hmem
    have hovf : ov = false := by
      cases hovb : ov with
      | false => rfl
      | true => exact absurd (hprev.mpr (Or.inr hovb)) hmem
    have hpmem : (e1, e2) ∉ prev := fun h => hmem (hprev.mpr (Or.inl h))
    refine ⟨?_, ?_, hkept⟩
    · rw [hu1, eventsFor_append, hev1, hsw.1]
      simp [hovf, hpmem, eventsFor]
    · rw [hu2, hsw.2]
      simp [hovf]

/-- C4: for a processed pair with a fully registered handler, an overlap
state sequence [false, true, true, false] across four consecutive ticks
dispatches, for that pair, exactly no callback, then Enter, then Stay,
then one Leave, after which the pair's key is no longer tracked. -/
theorem C4_transition_law (w1 w2 w3 w4 : CollisionWorld) (e1 e2 : Entity)
    (prev0 : List CollisionKey) (hne : e1 ≠ e2)
    (h1 : tickHyp w1 e1 e2 false) (h2 : tickHyp w2 e1 e2 true)
    (h3 : tickHyp w3 e1 e2 true) (h4 : tickHyp w4 e1 e2 false)
    (hk0 : (e1, e2) ∉ prev0) (hc0 : ∀ j, prev0.count j ≤ 1) :
    eventsFor (e1, e2) (collisionUpdate w1 prev0).1 = [] ∧
    eventsFor (e1, e2)
        (collisionUpdate w2 (collisionUpdate w1 prev0).2.1).1 =
      [⟨CollisionPhase.enter, e1, e2⟩] ∧
    eventsFor (e1, e2)
        (collisionUpdate w3
          (collisionUpdate w2 (collisionUpdate w1 prev0).2.1).2.1).1 =
      [⟨CollisionPhase.stay, e1, e2⟩] ∧
    eventsFor (e1, e2)
        (collisionUpdate w4
          (collisionUpdate w3
            (collisionUpdate w2 (collisionUpdate w1 prev0).2.1).2.1).2.1).1 =
      [⟨CollisionPhase.leave, e1, e2⟩] ∧
    (e1, e2) ∉
      (collisionUpdate w4
        (collisionUpdate w3
          (collisionUpdate w2 (collisionUpdate w1 prev0).2.1).2.1).2.1).2.1 := by
  have t1 := collisionUpdate_pair w1 e1 e2 false hne h1 prev0 hc0
  have hm1 : (e1, e2) ∉ (collisionUpdate w1 prev0).2.1 := fun h => by
    simpa using t1.2.1.mp h
  have t2 := collisionUpdate_pair w2 e1 e2 true hne h2 _ t1.2.2
  have hm2 : (e1, e2) ∈ (collisionUpdate w2 (collisionUpdate w1 prev0).2.1).2.1 :=
    t2.2.1.mpr rfl
  have t3 := collisionUpdate_pair w3 e1 e2 true hne h3 _ t2.2.2
  have hm3 : (e1, e2) ∈
      (collisionUpdate w3
        (collisionUpdate w2 (collisionUpdate w1 prev0).2.1).2.1).2.1 :=
    t3.2.1.mpr rfl
  have t4 := collisionUpdate_pair w4 e1 e2 false hne h4 _ t3.2.2
  refine ⟨?_, ?_, ?_, ?_, ?_⟩
  · rw [t1.1]
    simp [hk0]
  · rw [t2.1]
    simp [hm1]
  · rw [t3.1]
    simp [hm2]
  · rw [t4.1]
    simp [hm3]
  · intro h
    simpa using t4.2.1.mp h

/-- Witness for C4: entities 1 and 2 of group `g`, apart, then
overlapping for two ticks, then apart again — the tick sequence dispatches
[], [Enter], [Stay], [Leave] for the pair (1,2) and drops the key. -/
theorem C4_transition_law_witness :
    eventsFor (1, 2) (collisionUpdate wFar []).1 = [] ∧
    eventsFor (1, 2) (collisionUpdate wNear (collisionUpdate wFar []).2.1).1 =
      [⟨CollisionPhase.enter, 1, 2⟩] ∧
    eventsFor (1, 2)
        (collisionUpdate wNear
          (collisionUpdate wNear (collisionUpdate wFar []).2.1).2.1).1 =
      [⟨CollisionPhase.stay, 1, 2⟩] ∧
    eventsFor (1, 2)
        (collisionUpdate wFar
          (collisionUpdate wNear
            (collisionUpdate wNear (collisionUpdate wFar []).2.1).2.1).2.1).1 =
      [⟨CollisionPhase.leave, 1, 2⟩] ∧
    (1, 2) ∉
      (collisionUpdate wFar
        (collisionUpdate wNear
          (collisionUpdate wNear (collisionUpdate wFar []).2.1).2.1).2.1).2.1 := by
  have hF : tickHyp wFar 1 2 false := by
    refine ⟨by decide, by decide, by decide,
      collG, ⟨0, 0⟩, sizeTen, collG, ⟨100, 0⟩, sizeTen, rfl, rfl, ?_, ?_⟩
    · rfl
    · norm_num [checkCollision, rectOverlap, collG, sizeTen]
  have hN : tickHyp wNear 1 2 true := by
    refine ⟨by decide, by decide, by decide,
      collG, ⟨0, 0⟩, sizeTen, collG, ⟨5, 0⟩, sizeTen, rfl, rfl, ?_, ?_⟩
    · rfl
    · norm_num [checkCollision, rectOverlap, collG, sizeTen]
  exact C4_transition_law wFar wNear wNear wFar 1 2 [] (by decide) hF hN hN hF
    (by simp) (by simp)

/-! ## Claims about the physics system -/

/-- C3 (counterexample): at the spec's numbers — A at (0,0), 10×10, zero
offsets, velocity (200,50); solid B at (10,0), 10×10; gravity 0, dt 0.1 —
the candidate newX = 20 does **not** overlap B: the overlap test is
strict, and the rectangles [20,30] and [10,20] merely touch.  So the
horizontal move is not rejected, refuting "A's final position is (0,5)
and A's horizontal velocity is 0". -/
theorem C3_tunnel_counterexample :
    ¬((processEntity 1 ⟨0, 0⟩ ⟨200, 50⟩ sizeTen none [obstacleB] 0 (1 / 10)).1 =
        (⟨0, 5⟩ : PositionComponent) ∧
      (processEntity 1 ⟨0, 0⟩ ⟨200, 50⟩ sizeTen none [obstacleB] 0 (1 / 10)).2.X = 0) := by
  have heval : processEntity 1 ⟨0, 0⟩ ⟨200, 50⟩ sizeTen none [obstacleB] 0 (1 / 10) =
      (⟨20, 5⟩, ⟨200, 50⟩) := by
    simp only [processEntity, List.foldl, obstacleStep, skipObstacle, isColliding,
      obstacleB, sizeTen]
    norm_num
  rw [heval]
  rintro ⟨h1, h2⟩
  have : (20 : ℚ) = 0 := congrArg PositionComponent.X h1
  norm_num at this

/-- C3 (amended): with velocity (200,50) the candidate newX = 20 exactly
abuts B, the strict overlap test reports no overlap on either axis, and
the tick ends at position (20,5) with velocity (200,50) unchanged. -/
theorem C3_amended_eval :
    processEntity 1 ⟨0, 0⟩ ⟨200, 50⟩ sizeTen none [obstacleB] 0 (1 / 10) =
      (⟨20, 5⟩, ⟨200, 50⟩) := by
  simp only [processEntity, List.foldl, obstacleStep, skipObstacle, isColliding,
    obstacleB, sizeTen]
  norm_num

theorem foldl_obstacleStep_ghost (e : Entity) (pos : PositionComponent)
    (size : SizeComponent) :
    ∀ (l : List Obstacle) (st : PhysState),
      l.foldl (obstacleStep e (some "ghost") pos size) st =
        (l.filter (fun o => !(decide ("ghost" ∈ o.names)))).foldl
          (obstacleStep e none pos size) st := by
  intro l
  induction l with
  | nil => intro st; rfl
  | cons o t ih =>
    intro st
    rw [List.foldl_cons, List.filter_cons]
    by_cases hg : "ghost" ∈ o.names
    · have hstep : obstacleStep e (some "ghost") pos size st o = st := by
        have hskip : skipObstacle e (some "ghost") o = true := by
          simp [skipObstacle, hg]
        simp [obstacleStep, hskip]
      have hif : (if (!decide ("ghost" ∈ o.names)) = true
            then o :: t.filter (fun o => !(decide ("ghost" ∈ o.names)))
            else t.filter (fun o => !(decide ("ghost" ∈ o.names)))) =
          t.filter (fun o => !(decide ("ghost" ∈ o.names))) := by
        simp [hg]
      rw [hstep, hif]
      exact ih st
    · have hsk : skipObstacle e (some "ghost") o = skipObstacle e none o := by
        simp [skipObstacle, hg]
      have hstep : obstacleStep e (some "ghost") pos size st o =
          obstacleStep e none pos size st o := by
        simp only [obstacleStep, hsk]
      have hif : (if (!decide ("ghost" ∈ o.names)) = true
            then o :: t.filter (fun o => !(decide ("ghost" ∈ o.names)))
            else t.filter (fun o => !(decide ("ghost" ∈ o.names)))) =
          o :: t.filter (fun o => !(decide ("ghost" ∈ o.names))) := by
        simp [hg]
      rw [hstep, hif, List.foldl_cons]
      exact ih _

/-- C6: an entity carrying `solidexclude = "ghost"` is processed exactly
as if every solid obstacle carrying a component named `ghost` were absent:
it passes through all of those, and every remaining solid obstacle blocks
it exactly as it blocks an entity without the exclusion. -/
theorem C6_ghost_exclusion (e : Entity) (pos : PositionComponent)
    (vel : VelocityComponent) (size : SizeComponent) (obstacles : List Obstacle)
    (gravity dt : ℚ) :
    processEntity e pos vel size (some "ghost") obstacles gravity dt =
      processEntity e pos vel size none
        (obstacles.filter (fun o => !(decide ("ghost" ∈ o.names)))) gravity dt := by
  simp only [processEntity]
  rw [foldl_obstacleStep_ghost]

theorem obstacleStep_blockedX (e : Entity) (exclude : Option String)
    (pos : PositionComponent) (size : SizeComponent) (st : PhysState) (o : Obstacle)
    (h1 : st.newX = pos.X) (h2 : st.velX = 0) :
    (obstacleStep e exclude pos size st o).newX = pos.X ∧
    (obstacleStep e exclude pos size st o).velX = 0 := by
  by_cases hs : skipObstacle e exclude o = true
  · simp [obstacleStep, hs, h1, h2]
  · simp only [obstacleStep]
    rw [if_neg hs, h1]
    by_cases hcx : isColliding pos.X pos.Y size o.pos o.size = true <;>
      by_cases hcy : isColliding pos.X st.newY size o.pos o.size = true <;>
      simp [hcx, hcy, h1, h2]

theorem obstacleStep_X (e : Entity) (exclude : Option String)
    (pos : PositionComponent) (size : SizeComponent) (st : PhysState) (o : Obstacle) :
    ((obstacleStep e exclude pos size st o).newX = st.newX ∧
     (obstacleStep e exclude pos size st o).velX = st.velX) ∨
    ((obstacleStep e exclude pos size st o).newX = pos.X ∧
     (obstacleStep e exclude pos size st o).velX = 0) := by
  by_cases hs : skipObstacle e exclude o = true
  · left; simp [obstacleStep, hs]
  · by_cases hcx : isColliding st.newX pos.Y size o.pos o.size = true
    · right
      by_cases hcy : isColliding pos.X st.newY size o.pos o.size = true <;>
        simp [obstacleStep, hs, hcx, hcy]
    · left
      by_cases hcy : isColliding pos.X st.newY size o.pos o.size = true <;>
        simp [obstacleStep, hs, hcx, hcy]

theorem obstacleStep_Y (e : Entity) (exclude : Option String)
    (pos : PositionComponent) (size : SizeComponent) (st : PhysState) (o : Obstacle)
    (hy : skipObstacle e exclude o = false →
      isColliding pos.X st.newY size o.pos o.size = false) :
    (obstacleStep e exclude pos size st o).newY = st.newY ∧
    (obstacleStep e exclude pos size st o).velY = st.velY := by
  by_cases hs : skipObstacle e exclude o = true
  · simp [obstacleStep, hs]
  · have hcy := hy (by simpa using hs)
    by_cases hcx : isColliding st.newX pos.Y size o.pos o.size = true <;>
      simp [obstacleStep, hs, hcx, hcy]

theorem obstacleStep_triggerX (e : Entity) (exclude : Option String)
    (pos : PositionComponent) (size : SizeComponent) (st : PhysState) (o : Obstacle)
    (hs : skipObstacle e exclude o = false)
    (hcx : isColliding st.newX pos.Y size o.pos o.size = true) :
    (obstacleStep e exclude pos size st o).newX = pos.X ∧
    (obstacleStep e exclude pos size st o).velX = 0 := by
  by_cases hcy : isColliding pos.X st.newY size o.pos o.size = true <;>
    simp [obstacleStep, hs, hcx, hcy]

theorem foldl_obstacleStep_blockedX (e : Entity) (exclude : Option String)
    (pos : PositionComponent) (size : SizeComponent) :
    ∀ (l : List Obstacle) (st : PhysState), st.newX = pos.X → st.velX = 0 →
      ((l.foldl (obstacleStep e exclude pos size) st).newX = pos.X ∧
       (l.foldl (obstacleStep e exclude pos size) st).velX = 0) := by
  intro l
  induction l with
  | nil => intro st h1 h2; exact ⟨h1, h2⟩
  | cons o t ih =>
    intro st h1 h2
    rw [List.foldl_cons]
    have := obstacleStep_blockedX e exclude pos size st o h1 h2
    exact ih _ this.1 this.2

theorem foldl_obstacleStep_Y (e : Entity) (exclude : Option String)
    (pos : PositionComponent) (size : SizeComponent) :
    ∀ (l : List Obstacle) (st : PhysState),
      (∀ o ∈ l, skipObstacle e exclude o = false →
        isColliding pos.X st.newY size o.pos o.size = false) →
      ((l.foldl (obstacleStep e exclude pos size) st).newY = st.newY ∧
       (l.foldl (obstacleStep e exclude pos size) st).velY = st.velY) := by
  intro l
  induction l with
  | nil => intro st _; exact ⟨rfl, rfl⟩
  | cons o t ih =>
    intro st hv
    rw [List.foldl_cons]
    have hstep := obstacleStep_Y e exclude pos size st o
      (hv o (List.mem_cons_self _ _))
    have hrest := ih (obstacleStep e exclude pos size st o) (by
      intro o2 ho2
      rw [hstep.1]
      exact hv o2 (List.mem_cons_of_mem _ ho2))
    exact ⟨hrest.1.trans hstep.1, hrest.2.trans hstep.2⟩

theorem foldl_obstacleStep_triggerX (e : Entity) (exclude : Option String)
    (pos : PositionComponent) (size : SizeComponent) (candX vx0 : ℚ) :
    ∀ (l : List Obstacle) (st : PhysState),
      ((st.newX = candX ∧ st.velX = vx0) ∨ (st.newX = pos.X ∧ st.velX = 0)) →
      (∃ o ∈ l, skipObstacle e exclude o = false ∧
        isColliding candX pos.Y size o.pos o.size = true) →
      ((l.foldl (obstacleStep e exclude pos size) st).newX = pos.X ∧
       (l.foldl (obstacleStep e exclude pos size) st).velX = 0) := by
  intro l
  induction l with
  | nil =>
    intro st _ htr
    obtain ⟨o, ho, _⟩ := htr
    exact absurd ho (List.not_mem_nil o)
  | cons o t ih =>
    intro st hX htr
    rw [List.foldl_cons]
    obtain ⟨o2, ho2, hsk2, hcx2⟩ := htr
    rcases List.mem_cons.mp ho2 with rfl | ho2t
    · rcases hX with ⟨hx1, _⟩ | ⟨hx1, hx2⟩
      · have hblock := obstacleStep_triggerX e exclude pos size st o2 hsk2
          (by rw [hx1]; exact hcx2)
        exact foldl_obstacleStep_blockedX e exclude pos size t _ hblock.1 hblock.2
      · have hblock := obstacleStep_blockedX e exclude pos size st o2 hx1 hx2
        exact foldl_obstacleStep_blockedX e exclude pos size t _ hblock.1 hblock.2
    · have hX2 : (((obstacleStep e exclude pos size st o).newX = candX ∧
          (obstacleStep e exclude pos size st o).velX = vx0) ∨
          ((obstacleStep e exclude pos size st o).newX = pos.X ∧
           (obstacleStep e exclude pos size st o).velX = 0)) := by
        rcases obstacleStep_X e exclude pos size st o with ⟨ha, hb⟩ | hblk
        · rcases hX with ⟨hx1, hx2⟩ | ⟨hx1, hx2⟩
          · exact Or.inl ⟨ha.trans hx1, hb.trans hx2⟩
          · exact Or.inr ⟨ha.trans hx1, hb.trans hx2⟩
        · exact Or.inr hblk
      exact ih _ hX2 ⟨o2, ho2t, hsk2, hcx2⟩

/-- C7: when an entity's diagonal move is blocked only horizontally (some
non-skipped solid overlaps the x-candidate, none overlaps the
y-candidate), the tick leaves the horizontal position unchanged, zeroes
the horizontal velocity, and advances the vertical position by
`velocity.y * dt` with that tick's gravity already added to
`velocity.y`. -/
theorem C7_axis_separated (e : Entity) (pos : PositionComponent)
    (vel : VelocityComponent) (size : SizeComponent) (exclude : Option String)
    (obstacles : List Obstacle) (gravity dt : ℚ)
    (hv : ∀ o ∈ obstacles, skipObstacle e exclude o = false →
      isColliding pos.X (pos.Y + (vel.Y + gravity * dt) * dt) size o.pos o.size = false)
    (hx : ∃ o ∈ obstacles, skipObstacle e exclude o = false ∧
      isColliding (pos.X + vel.X * dt) pos.Y size o.pos o.size = true) :
    processEntity e pos vel size exclude obstacles gravity dt =
      (⟨pos.X, pos.Y + (vel.Y + gravity * dt) * dt⟩,
       ⟨0, vel.Y + gravity * dt⟩) := by
  simp only [processEntity]
  have hY := foldl_obstacleStep_Y e exclude pos size obstacles
    ⟨pos.X + vel.X * dt, pos.Y + (vel.Y + gravity * dt) * dt, vel.X,
      vel.Y + gravity * dt⟩ hv
  have hX := foldl_obstacleStep_triggerX e exclude pos size
    (pos.X + vel.X * dt) vel.X obstacles
    ⟨pos.X + vel.X * dt, pos.Y + (vel.Y + gravity * dt) * dt, vel.X,
      vel.Y + gravity * dt⟩ (Or.inl ⟨rfl, rfl⟩) hx
  rw [hX.1, hX.2, hY.1, hY.2]

/-- Witness for C7: A at (0,0) moving (150,50) against solid B at (10,0)
with gravity 0 and dt 0.1: the x-candidate 15 overlaps B, the y-candidate
does not, so the tick ends at (0,5) with velocity (0,50). -/
theorem C7_axis_separated_witness :
    processEntity 1 ⟨0, 0⟩ ⟨150, 50⟩ sizeTen none [obstacleB] 0 (1 / 10) =
      (⟨0, 0 + (50 + 0 * (1 / 10)) * (1 / 10)⟩, ⟨0, 50 + 0 * (1 / 10)⟩) := by
  apply C7_axis_separated
  · intro o ho hsk
    rw [List.mem_singleton] at ho
    subst ho
    norm_num [isColliding, obstacleB, sizeTen]
  · refine ⟨obstacleB, List.mem_singleton.mpr rfl, ?_, ?_⟩
    · norm_num [skipObstacle, obstacleB]
    · norm_num [isColliding, obstacleB, sizeTen]

end Gobonsai
